import Mathlib

/-!
Verification of the `pkgsz` measurement-and-attribution pipeline
(repository `kshutkin/package-size`).

The JavaScript sources are shallowly embedded below.  The current main
source file is the second document of `src/unnamed/part_000` (it matches
`src/package.json` version 0.12.3 and the JSON-output test); `src/index.js`
is an older revision of the same program, used where a claim cites it.

JavaScript string primitives (`startsWith`, `substring`, `split`,
`includes`) are modelled by structurally recursive functions over the
character data of Lean strings; on the ASCII strings this program
manipulates they coincide with the UTF-16 based JavaScript semantics.
-/

namespace PkgSz

/-! ### JavaScript string primitives -/

/-- `startsWithList s p` : `p` is an initial segment of `s` (character-wise). -/
def startsWithList : List Char → List Char → Bool
  | _, [] => true
  | [], _ :: _ => false
  | c :: cs, p :: ps => c == p && startsWithList cs ps

/-- JavaScript `s.startsWith(p)`. -/
def jsStartsWith (s p : String) : Bool :=
  startsWithList s.data p.data

/-- JavaScript `s.substring(n)` (drop the first `n` characters). -/
def jsDrop (s : String) (n : Nat) : String :=
  String.mk (s.data.drop n)

/-- JavaScript `s.includes(c)` for a single-character search string. -/
def jsContainsChar (s : String) (c : Char) : Bool :=
  s.data.contains c

/-- Auxiliary for `jsIncludes`: does `pat` occur in the character list? -/
def includesList (pat : List Char) : List Char → Bool
  | [] => startsWithList [] pat
  | c :: cs => startsWithList (c :: cs) pat || includesList pat cs

/-- JavaScript `s.includes(pat)` (substring occurrence). -/
def jsIncludes (s pat : String) : Bool :=
  includesList pat.data s.data

/-- Auxiliary for `jsSplitSlash`, working on the character list.
JavaScript `''.split('/')` is `['']`, which the base case reproduces. -/
def splitSlashList : List Char → List String
  | [] => [""]
  | c :: cs =>
    if c == '/' then "" :: splitSlashList cs
    else
      match splitSlashList cs with
      | [] => [String.mk [c]]
      | s :: rest => String.mk (c :: s.data) :: rest

/-- JavaScript `s.split('/')`. -/
def jsSplitSlash (s : String) : List String :=
  splitSlashList s.data

/-! ### Export validation — `validateExports` (src/unnamed/part_000 lines 826-844,
src/index.js lines 467-485; the two revisions are identical).

The source pushes onto an `exportsErrors` array inside a `for` loop, giving one
wildcard error and one leading-dot error per offending entry, in that order. -/

/-- One loop iteration of `validateExports`: the errors pushed for `exportName`. -/
def exportErrorsFor (exportName : String) : List String :=
  (if jsContainsChar exportName '*' then
    ["Wildcards are not supported: " ++ exportName] else []) ++
  (if !(jsStartsWith exportName ".") then
    ["Exports must start with a dot: " ++ exportName] else [])

/-- The error list collected by `validateExports` over all requested exports. -/
def validateExports (exports : List String) : List String :=
  exports.foldl (fun exportsErrors exportName =>
    exportsErrors ++ exportErrorsFor exportName) []

/-! ### CLI flags and the early pipeline (src/unnamed/part_000).

`getCliArgs` (lines 813-817) exits with code 1 when `--json` and
`--interactive` are both set.  The top level then runs, in order:
`validateExports(flags.export)` (line 360, exiting with code 1 on any
collected error, line 840-843), `createDirs()` (line 364, the workspace),
and `installPackage()` (line 368).  `earlyPipeline` records how far this
prefix of the run gets. -/

/-- CLI flags of `pkgsz` (src/unnamed/part_000 lines 753-801).  The
repeatable `--export` flag is the field `exportFlag` (its source name,
`export`, is a Lean keyword). -/
structure Flags where
  registry : Option String := Option.none
  exportFlag : List String := ["."]
  noGzip : Bool := false
  brotli : Bool := false
  noClean : Bool := false
  enableScripts : Bool := false
  interactive : Bool := false
  json : Bool := false
deriving DecidableEq, Repr

/-- Outcome of the pipeline prefix up to (and including) starting the
package install.  `exitCode = some c` means the process exited with `c`
before reaching the later stages. -/
structure EarlyOutcome where
  exitCode : Option Nat
  workspaceCreated : Bool
  installStarted : Bool
deriving DecidableEq, Repr

/-- The pipeline prefix: `getCliArgs` flag check, then `validateExports`,
then workspace creation and install (src/unnamed/part_000 lines 354-368,
813-817, 826-844). -/
def earlyPipeline (flags : Flags) : EarlyOutcome :=
  if flags.json && flags.interactive then
    { exitCode := some 1, workspaceCreated := false, installStarted := false }
  else if !(validateExports flags.exportFlag).isEmpty then
    { exitCode := some 1, workspaceCreated := false, installStarted := false }
  else
    { exitCode := Option.none, workspaceCreated := true, installStarted := true }

/-! #### Lemmas about validation -/

theorem validateExports_go (exports : List String) (acc : List String) :
    exports.foldl (fun exportsErrors exportName =>
      exportsErrors ++ exportErrorsFor exportName) acc
      = acc ++ exports.flatMap exportErrorsFor := by
  induction exports generalizing acc with
  | nil => simp
  | cons e tl ih => simp [List.foldl_cons, ih, List.flatMap_cons]

theorem validateExports_eq_flatMap (exports : List String) :
    validateExports exports = exports.flatMap exportErrorsFor := by
  simpa using validateExports_go exports []

theorem exportErrorsFor_length (e : String) :
    (exportErrorsFor e).length
      = (if jsContainsChar e '*' then 1 else 0)
        + (if !(jsStartsWith e ".") then 1 else 0) := by
  unfold exportErrorsFor
  split <;> split <;> simp

theorem validateExports_length (exports : List String) :
    (validateExports exports).length
      = (exports.filter (fun e => jsContainsChar e '*')).length
        + (exports.filter (fun e => !(jsStartsWith e "."))).length := by
  induction exports with
  | nil => simp [validateExports]
  | cons e tl ih =>
    rw [validateExports_eq_flatMap] at ih ⊢
    simp only [List.flatMap_cons, List.length_append, List.filter_cons, ih,
      exportErrorsFor_length]
    split <;> split <;> simp <;> omega

/-- C2: validation collects one error per wildcard-containing entry and one per
entry not starting with `.`, over the whole requested list (no
short-circuiting), and when any error exists the run exits with code 1 with no
workspace ever created and no install started. -/
theorem validateExports_collects_and_aborts (flags : Flags) :
    (validateExports flags.exportFlag).length
      = (flags.exportFlag.filter (fun e => jsContainsChar e '*')).length
        + (flags.exportFlag.filter (fun e => !(jsStartsWith e "."))).length
    ∧ (validateExports flags.exportFlag ≠ [] →
        (earlyPipeline flags).exitCode = some 1
        ∧ (earlyPipeline flags).workspaceCreated = false
        ∧ (earlyPipeline flags).installStarted = false) := by
  refine ⟨validateExports_length _, fun h => ?_⟩
  unfold earlyPipeline
  by_cases hji : (flags.json && flags.interactive) = true
  · simp [hji]
  · simp only [hji, if_false, Bool.not_eq_true] at *
    simp [List.isEmpty_iff, h, hji]

/-- Concrete run of the C2 theorem: the single request `"*x"` produces two
errors (wildcard and missing dot) and aborts the run before workspace
creation. -/
theorem validateExports_collects_and_aborts_app :
    (earlyPipeline { exportFlag := ["*x"] }).exitCode = some 1
    ∧ (earlyPipeline { exportFlag := ["*x"] }).workspaceCreated = false
    ∧ (earlyPipeline { exportFlag := ["*x"] }).installStarted = false :=
  (validateExports_collects_and_aborts { exportFlag := ["*x"] }).2 (by decide)

/-- C7: requesting JSON output and interactive mode together exits with code 1
before any workspace is created and before any install starts
(src/unnamed/part_000 lines 813-817). -/
theorem json_interactive_fatal (flags : Flags)
    (hj : flags.json = true) (hi : flags.interactive = true) :
    (earlyPipeline flags).exitCode = some 1
    ∧ (earlyPipeline flags).workspaceCreated = false
    ∧ (earlyPipeline flags).installStarted = false := by
  simp [earlyPipeline, hj, hi]

/-- Concrete run of the C7 theorem at `--json --interactive`. -/
theorem json_interactive_fatal_app :
    (earlyPipeline { interactive := true, json := true }).exitCode = some 1
    ∧ (earlyPipeline { interactive := true, json := true }).workspaceCreated = false
    ∧ (earlyPipeline { interactive := true, json := true }).installStarted = false :=
  json_interactive_fatal { interactive := true, json := true } rfl rfl

/-! ### Composition attribution — `exploreSourcemaps`
(src/unnamed/part_000 lines 533-564; src/index.js lines 193-224 is identical).

The analyzer's `results[].files` mapping is embedded as a list of
`(source path, size)` entries in iteration order; the `compositionMap`
(a JavaScript `Map`) as an association list in insertion order, keys unique. -/

/-- The vendored-dependency path marker (source name `nodeModulesPrefix`). -/
def nodeModulesDir : String := "../node_modules/"

/-- The composition key chosen for one source path:
`some` name to accumulate under, or `Option.none` when the entry is skipped
(the `continue` for the `[sourceMappingURL]` key). -/
def pkgNameOfKey (key : String) : Option String :=
  if jsStartsWith key nodeModulesDir then
    let mapped := jsDrop key nodeModulesDir.length
    let parts := jsSplitSlash mapped
    let pkgName := parts.headD ""
    some (if jsStartsWith (parts.headD "") "@" && parts.length > 1 then
      pkgName ++ "/" ++ parts.getD 1 "" else pkgName)
  else if key = "[sourceMappingURL]" then Option.none
  else some key

/-- `compositionMap.has` / `compositionMap.set` accumulation: add `size` to the
existing entry for `pkgName`, or append a new entry. -/
def addToCompositionMap (compositionMap : List (String × Nat))
    (pkgName : String) (size : Nat) : List (String × Nat) :=
  if compositionMap.any (fun p => p.1 == pkgName) then
    compositionMap.map (fun p => if p.1 == pkgName then (p.1, p.2 + size) else p)
  else
    compositionMap ++ [(pkgName, size)]

/-- One iteration of the attribution loop of `exploreSourcemaps`:
skip zero sizes and the `[sourceMappingURL]` key, otherwise accumulate the
entry's size under its composition key. -/
def exploreStep (compositionMap : List (String × Nat)) (entry : String × Nat) :
    List (String × Nat) :=
  if entry.2 == 0 then compositionMap
  else
    match pkgNameOfKey entry.1 with
    | Option.none => compositionMap
    | some pkgName => addToCompositionMap compositionMap pkgName entry.2

/-- The attribution loop of `exploreSourcemaps`: fold the analyzer's file
entries into the composition map. -/
def exploreSourcemaps (files : List (String × Nat))
    (compositionMap : List (String × Nat)) : List (String × Nat) :=
  files.foldl exploreStep compositionMap

/-- Total size recorded in the composition map under `name`
(sum over matching entries; a well-formed map has at most one). -/
def lookupSum (compositionMap : List (String × Nat)) (name : String) : Nat :=
  ((compositionMap.filter (fun p => p.1 == name)).map Prod.snd).sum

/-- The bytes a file map contributes to composition key `name`:
sizes of its nonzero entries whose path attributes to `name`. -/
def contribution (files : List (String × Nat)) (name : String) : Nat :=
  ((files.filter (fun e => e.2 != 0 && (pkgNameOfKey e.1 == some name))).map
    Prod.snd).sum

/-- Spec-side package-name derivation, following the spec's words: take the
path after the vendored-dependency marker, split into segments; for a scoped
package (first segment starting with `@`) join the first two segments with
`/`, otherwise take the first segment. -/
def joinSlash : List String → String
  | [] => ""
  | [s] => s
  | s :: rest => s ++ "/" ++ joinSlash rest

/-- Spec-side owning-package name for a vendored source path. -/
def specPkgName (key : String) : String :=
  let segments := jsSplitSlash (jsDrop key nodeModulesDir.length)
  if jsStartsWith (segments.headD "") "@" then joinSlash (segments.take 2)
  else segments.headD ""

/-! #### Lemmas about the composition map -/

theorem lookupSum_nil (name : String) : lookupSum [] name = 0 := rfl

theorem lookupSum_cons (p : String × Nat) (tl : List (String × Nat))
    (name : String) :
    lookupSum (p :: tl) name
      = (if p.1 = name then p.2 else 0) + lookupSum tl name := by
  by_cases h : p.1 = name <;> simp [lookupSum, List.filter_cons, h]

theorem lookupSum_append (l₁ l₂ : List (String × Nat)) (name : String) :
    lookupSum (l₁ ++ l₂) name = lookupSum l₁ name + lookupSum l₂ name := by
  simp [lookupSum, List.filter_append]

/-- Updating entries keyed `n` is the identity on a list with no such key. -/
theorem map_update_eq_self (tl : List (String × Nat)) (n : String) (s : Nat)
    (h : ∀ p ∈ tl, p.1 ≠ n) :
    tl.map (fun p => if p.1 == n then (p.1, p.2 + s) else p) = tl := by
  induction tl with
  | nil => rfl
  | cons p tl ih =>
    have hp : p.1 ≠ n := h p (List.mem_cons_self ..)
    have htl := ih (fun q hq => h q (List.mem_cons_of_mem _ hq))
    rw [List.map_cons, htl]
    simp [hp]

/-- The keys of the composition map are unchanged or extended by `n`. -/
theorem keys_addToCompositionMap (cm : List (String × Nat)) (n : String)
    (s : Nat) :
    (addToCompositionMap cm n s).map Prod.fst
      = if cm.any (fun p => p.1 == n) then cm.map Prod.fst
        else cm.map Prod.fst ++ [n] := by
  unfold addToCompositionMap
  split
  · rw [List.map_map]
    apply List.map_congr_left
    intro p _
    by_cases h : p.1 = n <;> simp [Function.comp, h]
  · simp

theorem nodup_addToCompositionMap (cm : List (String × Nat)) (n : String)
    (s : Nat) (h : (cm.map Prod.fst).Nodup) :
    ((addToCompositionMap cm n s).map Prod.fst).Nodup := by
  rw [keys_addToCompositionMap]
  split
  · exact h
  · next hany =>
    have hmem : n ∉ cm.map Prod.fst := by
      intro hn
      obtain ⟨p, hp, hfst⟩ := List.mem_map.mp hn
      exact absurd (List.any_eq_true.mpr ⟨p, hp, by simp [hfst]⟩) hany
    simp [List.nodup_append, h, hmem]

theorem lookupSum_map_update (cm : List (String × Nat)) (n : String) (s : Nat)
    (name : String) (hnd : (cm.map Prod.fst).Nodup)
    (hany : cm.any (fun p => p.1 == n) = true) :
    lookupSum (cm.map (fun p => if p.1 == n then (p.1, p.2 + s) else p)) name
      = lookupSum cm name + (if n = name then s else 0) := by
  induction cm with
  | nil => simp at hany
  | cons p tl ih =>
    obtain ⟨k, v⟩ := p
    simp only [List.map_cons, List.nodup_cons, List.mem_map] at hnd
    by_cases hk : k = n
    · subst hk
      have htl : tl.map (fun p => if p.1 == k then (p.1, p.2 + s) else p) = tl :=
        map_update_eq_self tl k s (fun q hq hqk => hnd.1 ⟨q, hq, hqk⟩)
      rw [List.map_cons, htl, lookupSum_cons, lookupSum_cons]
      by_cases hkn : k = name
      all_goals simp [hkn]
      all_goals omega
    · have htl : tl.any (fun p => p.1 == n) = true := by
        rcases List.any_eq_true.mp hany with ⟨q, hq, hqn⟩
        rcases List.mem_cons.mp hq with h1 | h1
        · rw [h1] at hqn
          exact absurd (beq_iff_eq.mp hqn) hk
        · exact List.any_eq_true.mpr ⟨q, h1, hqn⟩
      rw [List.map_cons, lookupSum_cons, ih hnd.2 htl, lookupSum_cons]
      simp [hk]
      omega

theorem lookupSum_addToCompositionMap (cm : List (String × Nat)) (n : String)
    (s : Nat) (name : String) (hnd : (cm.map Prod.fst).Nodup) :
    lookupSum (addToCompositionMap cm n s) name
      = lookupSum cm name + (if n = name then s else 0) := by
  unfold addToCompositionMap
  split
  · next hany => exact lookupSum_map_update cm n s name hnd hany
  · rw [lookupSum_append]
    by_cases h : n = name <;> simp [lookupSum, List.filter_cons, h]

theorem exploreStep_zero (cm : List (String × Nat)) (k : String) :
    exploreStep cm (k, 0) = cm := rfl

theorem exploreStep_skip (cm : List (String × Nat)) (k : String) (sz : Nat)
    (h : pkgNameOfKey k = Option.none) : exploreStep cm (k, sz) = cm := by
  unfold exploreStep
  rw [h]
  split <;> rfl

theorem exploreStep_add (cm : List (String × Nat)) (k : String) (sz : Nat)
    (nm : String) (hz : sz ≠ 0) (h : pkgNameOfKey k = some nm) :
    exploreStep cm (k, sz) = addToCompositionMap cm nm sz := by
  unfold exploreStep
  rw [h]
  simp [hz]

theorem exploreSourcemaps_nil (cm : List (String × Nat)) :
    exploreSourcemaps [] cm = cm := rfl

theorem exploreSourcemaps_cons (e : String × Nat)
    (files : List (String × Nat)) (cm : List (String × Nat)) :
    exploreSourcemaps (e :: files) cm
      = exploreSourcemaps files (exploreStep cm e) := rfl

theorem nodup_exploreSourcemaps (files : List (String × Nat)) :
    ∀ cm : List (String × Nat), (cm.map Prod.fst).Nodup →
      ((exploreSourcemaps files cm).map Prod.fst).Nodup := by
  induction files with
  | nil => intro cm h; exact h
  | cons e tl ih =>
    intro cm h
    obtain ⟨k, sz⟩ := e
    rw [exploreSourcemaps_cons]
    apply ih
    by_cases hz : sz = 0
    · subst hz; rw [exploreStep_zero]; exact h
    · rcases hpk : pkgNameOfKey k with _ | nm
      · rw [exploreStep_skip cm k sz hpk]; exact h
      · rw [exploreStep_add cm k sz nm hz hpk]
        exact nodup_addToCompositionMap _ _ _ h

/-- Attribution is additive: folding a file map into the composition map adds
exactly that map's contribution to every composition key. -/
theorem lookupSum_exploreSourcemaps (name : String)
    (files : List (String × Nat)) :
    ∀ cm : List (String × Nat), (cm.map Prod.fst).Nodup →
      lookupSum (exploreSourcemaps files cm) name
        = lookupSum cm name + contribution files name := by
  induction files with
  | nil => intro cm _; simp [exploreSourcemaps_nil, contribution]
  | cons e tl ih =>
    intro cm hnd
    obtain ⟨k, sz⟩ := e
    rw [exploreSourcemaps_cons]
    by_cases hz : sz = 0
    · subst hz
      rw [exploreStep_zero, ih cm hnd]
      simp [contribution, List.filter_cons]
    · rcases hpk : pkgNameOfKey k with _ | nm
      · rw [exploreStep_skip cm k sz hpk, ih cm hnd]
        have hfalse : (sz != 0 && (pkgNameOfKey k == some name)) = false := by
          simp [hpk]
        simp [contribution, List.filter_cons, hfalse]
      · rw [exploreStep_add cm k sz nm hz hpk,
          ih _ (nodup_addToCompositionMap _ _ _ hnd),
          lookupSum_addToCompositionMap _ _ _ _ hnd]
        have hcontrib : contribution ((k, sz) :: tl) name
            = (if nm = name then sz else 0) + contribution tl name := by
          by_cases h : nm = name
          · have ht : (sz != 0 && (pkgNameOfKey k == some name)) = true := by
              simp [hpk, h, hz]
            simp [contribution, List.filter_cons, ht, h]
          · have hf : (sz != 0 && (pkgNameOfKey k == some name)) = false := by
              simp [hpk, h]
            simp [contribution, List.filter_cons, hf, h]
        rw [hcontrib]
        omega

/-! #### Claim theorems about composition attribution -/

/-- C3: for a source path under the vendored-dependency marker, the code's
composition key equals the spec-side derivation (first two segments joined by
`/` for scoped packages, first segment otherwise); two files attributing to
the same package sum additively into a single composition entry; and the
scoped path `../node_modules/@scope/pkg/file.js` contributes all its bytes to
the key `@scope/pkg`. -/
theorem attribution_scoped_packages (key : String)
    (h : jsStartsWith key nodeModulesDir = true) :
    pkgNameOfKey key = some (specPkgName key)
    ∧ (∀ (k1 k2 nm : String) (s1 s2 : Nat),
        pkgNameOfKey k1 = some nm → pkgNameOfKey k2 = some nm →
        s1 ≠ 0 → s2 ≠ 0 →
        exploreSourcemaps [(k1, s1), (k2, s2)] [] = [(nm, s1 + s2)])
    ∧ (∀ sz : Nat, sz ≠ 0 →
        exploreSourcemaps [("../node_modules/@scope/pkg/file.js", sz)] []
          = [("@scope/pkg", sz)]) := by
  refine ⟨?_, ?_, ?_⟩
  · simp only [pkgNameOfKey, specPkgName, h, if_true]
    generalize jsSplitSlash (jsDrop key nodeModulesDir.length) = parts
    match parts with
    | [] => simp [joinSlash, jsStartsWith, startsWithList]
    | [s0] =>
      by_cases hs : jsStartsWith s0 "@" = true <;> simp [hs, joinSlash]
    | s0 :: s1 :: rest =>
      by_cases hs : jsStartsWith s0 "@" = true <;> simp [hs, joinSlash]
  · intro k1 k2 nm s1 s2 h1 h2 hs1 hs2
    rw [exploreSourcemaps_cons, exploreStep_add [] k1 s1 nm hs1 h1,
      exploreSourcemaps_cons]
    rw [show addToCompositionMap [] nm s1 = [(nm, s1)] from by
      simp [addToCompositionMap]]
    rw [exploreStep_add [(nm, s1)] k2 s2 nm hs2 h2, exploreSourcemaps_nil]
    simp [addToCompositionMap]
  · intro sz hz
    rw [exploreSourcemaps_cons,
      exploreStep_add [] "../node_modules/@scope/pkg/file.js" sz "@scope/pkg"
        hz (by decide),
      exploreSourcemaps_nil]
    simp [addToCompositionMap]

/-- Concrete run of the C3 theorem at the scoped example path. -/
theorem attribution_scoped_packages_app :
    pkgNameOfKey "../node_modules/@scope/pkg/file.js"
      = some (specPkgName "../node_modules/@scope/pkg/file.js") :=
  (attribution_scoped_packages "../node_modules/@scope/pkg/file.js"
    (by decide)).1

/-- C4 counterexample: the analyzer's synthetic end-of-lines sentinel
`[EOLs]` is NOT excluded from attribution — it becomes a composition entry
under the key `[EOLs]` itself, not under a self-marker key (the repository's
own JSON snapshot test asserts this entry).  The key the code excludes is
`[sourceMappingURL]`. -/
theorem eols_attributed_not_excluded :
    exploreSourcemaps [("[EOLs]", 2)] [] = [("[EOLs]", 2)]
    ∧ exploreSourcemaps [("[EOLs]", 2)] [] ≠ [] := by
  constructor <;> decide

/-- C4 amended: a source path outside the vendored-dependency marker is
attributed under the path itself as composition key (the render step later
marks the entry whose key equals the measured package's name as the self
entry); the `[sourceMappingURL]` sentinel and every zero-size entry are
excluded from attribution. -/
theorem attribution_nonvendored_keys (key : String) (sz : Nat)
    (cm : List (String × Nat))
    (h1 : jsStartsWith key nodeModulesDir = false)
    (h2 : key ≠ "[sourceMappingURL]") (h3 : sz ≠ 0) :
    exploreSourcemaps [(key, sz)] cm = addToCompositionMap cm key sz
    ∧ (∀ (sz' : Nat) (cm' : List (String × Nat)),
        exploreSourcemaps [("[sourceMappingURL]", sz')] cm' = cm')
    ∧ (∀ (k : String) (cm' : List (String × Nat)),
        exploreSourcemaps [(k, 0)] cm' = cm') := by
  refine ⟨?_, ?_, ?_⟩
  · have hpk : pkgNameOfKey key = some key := by
      simp [pkgNameOfKey, h1, h2]
    rw [exploreSourcemaps_cons, exploreStep_add cm key sz key h3 hpk,
      exploreSourcemaps_nil]
  · intro sz' cm'
    by_cases hz : sz' = 0
    · subst hz
      rw [exploreSourcemaps_cons, exploreStep_zero, exploreSourcemaps_nil]
    · rw [exploreSourcemaps_cons,
        exploreStep_skip cm' "[sourceMappingURL]" sz' (by decide),
        exploreSourcemaps_nil]
  · intro k cm'
    rw [exploreSourcemaps_cons, exploreStep_zero, exploreSourcemaps_nil]

/-- Concrete run of the C4 amended theorem at the `[EOLs]` sentinel. -/
theorem attribution_nonvendored_keys_app :
    exploreSourcemaps [("[EOLs]", 2)] []
      = addToCompositionMap [] "[EOLs]" 2 :=
  (attribution_nonvendored_keys "[EOLs]" 2 [] (by decide) (by decide)
    (by decide)).1

/-- C5 counterexample: attribution is NOT idempotent under re-aggregation —
merging the same one-entry source-size map twice doubles the attributed
total (5 becomes 10), so the re-aggregated state differs from the
once-aggregated state. -/
theorem attribution_not_idempotent :
    exploreSourcemaps [("a", 5)] (exploreSourcemaps [("a", 5)] [])
      ≠ exploreSourcemaps [("a", 5)] [] := by
  decide

/-- C5 amended: attribution is additive (not idempotent) under
re-aggregation: attributing the same source-size map twice into the
composition state gives every package total equal to its initial total plus
TWICE the map's contribution (attributing once adds it once). -/
theorem attribution_additive_reaggregation (files : List (String × Nat))
    (cm : List (String × Nat)) (name : String)
    (hnd : (cm.map Prod.fst).Nodup) :
    lookupSum (exploreSourcemaps files (exploreSourcemaps files cm)) name
      = lookupSum cm name + 2 * contribution files name := by
  rw [lookupSum_exploreSourcemaps name files _
      (nodup_exploreSourcemaps files cm hnd),
    lookupSum_exploreSourcemaps name files cm hnd]
  omega

/-- Concrete run of the C5 amended theorem: totals after double aggregation
are the single contribution counted twice. -/
theorem attribution_additive_reaggregation_app :
    lookupSum (exploreSourcemaps [("a", 5)]
        (exploreSourcemaps [("a", 5)] [])) "a"
      = lookupSum [] "a" + 2 * contribution [("a", 5)] "a" :=
  attribution_additive_reaggregation [("a", 5)] [] "a" (by simp)

/-! ### Size calculator — `dirSize` and `dirCompressedSize`
(src/unnamed/part_000 lines 880-926; src/index.js lines 521-567 is
identical).

The filesystem is a parameter: `statSize` is the `size` field of
`await stat(path)` and `readFile` the file's byte content.  The zlib
compressors (external collaborators) are parameters `gzipLen` / `brotliLen`
giving the compressed lengths of a byte content.  The JavaScript
`Set`-of-methods is modelled by deduplicating the method list; the partial
result object `{none?, gzip?, brotli?}` by a function
`CompressionMethod → Option Nat` (a key is present iff the value is
`some`). -/

/-- The compression methods (type `CompressionMethod` in the source). -/
inductive CompressionMethod where
  | none
  | gzip
  | brotli
deriving DecidableEq, Repr

/-- The filesystem view the size calculator reads. -/
structure FileSystem where
  statSize : String → Nat
  readFile : String → List Nat

/-- `dirSize(paths)`: sum of each path's raw stat size
(src/unnamed/part_000 lines 880-890). -/
def dirSize (fs : FileSystem) (paths : List String) : Nat :=
  (paths.map fs.statSize).foldl (· + ·) 0

/-- Add `k` to the per-method accumulator at method `m`
(the `results[method] += length` statements). -/
def bumpResult (res : CompressionMethod → Option Nat) (m : CompressionMethod)
    (k : Nat) : CompressionMethod → Option Nat :=
  fun x => if x = m then (res x).map (· + k) else res x

/-- Per-file body of the `Promise.all` loop of `dirCompressedSize`: read the
content once, then accumulate each requested method's total. -/
def compressFile (fs : FileSystem) (gzipLen brotliLen : List Nat → Nat)
    (methodsSet : List CompressionMethod)
    (res : CompressionMethod → Option Nat) (path : String) :
    CompressionMethod → Option Nat :=
  let fileContent := fs.readFile path
  let res := if methodsSet.contains CompressionMethod.none then
    bumpResult res CompressionMethod.none fileContent.length else res
  let res := if methodsSet.contains CompressionMethod.gzip then
    bumpResult res CompressionMethod.gzip (gzipLen fileContent) else res
  if methodsSet.contains CompressionMethod.brotli then
    bumpResult res CompressionMethod.brotli (brotliLen fileContent) else res

/-- `dirCompressedSize(paths, methods)` (src/unnamed/part_000 lines 896-926):
if `none` is the only requested method, skip content reads and return the
stat-based `dirSize`; otherwise initialise every requested method's total to
`0` and accumulate per file from the read content. -/
def dirCompressedSize (fs : FileSystem) (gzipLen brotliLen : List Nat → Nat)
    (paths : List String) (methods : List CompressionMethod) :
    CompressionMethod → Option Nat :=
  let methodsSet := methods.dedup
  if methodsSet.contains CompressionMethod.none && methodsSet.length == 1 then
    fun m => if m = CompressionMethod.none then some (dirSize fs paths)
      else Option.none
  else
    paths.foldl (compressFile fs gzipLen brotliLen methodsSet)
      (fun m => if methodsSet.contains m then some 0 else Option.none)

theorem foldl_add_eq_sum (l : List Nat) (n : Nat) :
    l.foldl (· + ·) n = n + l.sum := by
  induction l generalizing n with
  | nil => simp
  | cons a tl ih => simp [List.foldl_cons, ih, List.sum_cons]; omega

/-- With `none` and `gzip` requested, one `compressFile` step adds the
content length to the running `none` total. -/
theorem compressFile_none_gzip (fs : FileSystem)
    (gzipLen brotliLen : List Nat → Nat)
    (res : CompressionMethod → Option Nat) (path : String) (k : Nat)
    (h : res CompressionMethod.none = some k) :
    compressFile fs gzipLen brotliLen
        [CompressionMethod.none, CompressionMethod.gzip] res path
        CompressionMethod.none
      = some (k + (fs.readFile path).length) := by
  simp [compressFile, bumpResult, h]

/-- The running `none` total after folding `compressFile` over `paths`. -/
theorem foldl_compressFile_none (fs : FileSystem)
    (gzipLen brotliLen : List Nat → Nat) (paths : List String) :
    ∀ (res : CompressionMethod → Option Nat) (k : Nat),
      res CompressionMethod.none = some k →
      (paths.foldl (compressFile fs gzipLen brotliLen
          [CompressionMethod.none, CompressionMethod.gzip]) res)
          CompressionMethod.none
        = some (k + (paths.map (fun p => (fs.readFile p).length)).sum) := by
  induction paths with
  | nil => intro res k h; simpa using h
  | cons p tl ih =>
    intro res k h
    rw [List.foldl_cons,
      ih _ (k + (fs.readFile p).length) (compressFile_none_gzip _ _ _ _ _ _ h)]
    simp [List.map_cons, List.sum_cons]
    omega

/-- C1: requesting only the `none` method returns, as the `none` total, the
sum of raw stat sizes computed by `dirSize` over the same paths (the
stat-based fast path); and when contents must be read because `gzip` is also
requested, the content-read accumulation yields the same `none` total,
provided each file's content length equals its stat size. -/
theorem dirCompressedSize_none_eq_dirSize (fs : FileSystem)
    (gzipLen brotliLen : List Nat → Nat) (paths : List String)
    (_hne : paths ≠ [])
    (hwf : ∀ p ∈ paths, (fs.readFile p).length = fs.statSize p) :
    dirCompressedSize fs gzipLen brotliLen paths [CompressionMethod.none]
        CompressionMethod.none
      = some (dirSize fs paths)
    ∧ dirCompressedSize fs gzipLen brotliLen paths
        [CompressionMethod.none, CompressionMethod.gzip]
        CompressionMethod.none
      = some (dirSize fs paths) := by
  constructor
  · simp [dirCompressedSize]
  · have hset : ([CompressionMethod.none, CompressionMethod.gzip]).dedup
        = [CompressionMethod.none, CompressionMethod.gzip] := by decide
    have hinit : (fun m => if ([CompressionMethod.none,
          CompressionMethod.gzip]).contains m then some 0 else Option.none)
          CompressionMethod.none = some 0 := by decide
    unfold dirCompressedSize
    rw [hset]
    simp only [List.contains_cons, beq_self_eq_true, Bool.true_or,
      Bool.true_and]
    rw [if_neg (by decide)]
    rw [foldl_compressFile_none fs gzipLen brotliLen paths _ 0 hinit]
    have hmaps : paths.map (fun p => (fs.readFile p).length)
        = paths.map fs.statSize := List.map_congr_left hwf
    rw [hmaps, dirSize, foldl_add_eq_sum]

/-- Concrete run of the C1 theorem on a one-file filesystem where the stat
size matches the content length. -/
theorem dirCompressedSize_none_eq_dirSize_app :
    dirCompressedSize
        { statSize := fun _ => 3, readFile := fun _ => [104, 105, 33] }
        List.sum List.sum ["a"] [CompressionMethod.none]
        CompressionMethod.none
      = some (dirSize
          { statSize := fun _ => 3, readFile := fun _ => [104, 105, 33] }
          ["a"]) :=
  (dirCompressedSize_none_eq_dirSize
    { statSize := fun _ => 3, readFile := fun _ => [104, 105, 33] }
    List.sum List.sum ["a"] (by decide) (by intro p _; rfl)).1

/-! ### Export resolution — `getExportsData` and `hasDefaultExport`
(src/unnamed/part_000 lines 627-662; src/index.js lines 287-300 computes the
same list).

`hasDefaultExport` runs an external probe build per import specifier; the
probe is a parameter.  In `getExportsData`, the JavaScript
`.map(...).filter(Boolean)` drops both `undefined` (entries matching neither
`./<subpath>` nor `.`) and the empty string (the entry `./`, whose
`substring(2)` is `''`). -/

/-- The resolved export record (spec names; the source field names `import`
and `export` are Lean keywords). -/
structure ExportSpec where
  importSpecifier : String
  exportPath : String
  hasDefaultExport : Bool
deriving DecidableEq, Repr

/-- `getExportsData(exports)`: normalize each requested export and build
its import specifier; `probe` is the external default-export check applied
to the import specifier. -/
def getExportsData (packageName : String) (probe : String → Bool)
    (exports : List String) : List ExportSpec :=
  (exports.filterMap (fun exportName =>
    if jsStartsWith exportName "./" then
      let stripped := jsDrop exportName 2
      if stripped = "" then Option.none else some stripped
    else if exportName = "." then some exportName
    else Option.none)).map
    (fun exportName =>
      let importName := packageName ++
        (if exportName = "." then "" else "/" ++ exportName)
      { importSpecifier := importName, exportPath := exportName,
        hasDefaultExport := probe importName })

/-- The error-output signature `hasDefaultExport` searches the probe build's
stderr for. -/
def defaultExportSignature : String := "\"default\" is not exported by"

/-- `hasDefaultExport(importName)` (src/unnamed/part_000 lines 645-662): the
probe build either yields its stderr text (`Except.ok`) or throws
(`Except.error`); a throw is caught inside and classified as `false`. -/
def hasDefaultExport (probeBuild : Except String String) : Bool :=
  match probeBuild with
  | Except.ok errors => !(jsIncludes errors defaultExportSignature)
  | Except.error _ => false

/-- C6 counterexample: the request `".foo"` passes validation (it starts
with a dot and has no wildcard) yet yields no `ExportSpec` — it is dropped
because it does not start with `./` and is not the bare root `.`.  So not
every string that passes validation yields an `ExportSpec`. -/
theorem validated_export_dropped :
    validateExports [".foo"] = []
    ∧ getExportsData "pkg" (fun _ => false) [".foo"] = [] := by
  constructor <;> decide

/-- C6 amended: resolution strips a leading `./` or accepts the bare root
`.`; the import specifier is the package name for the root export and
`<packageName>/<subpath>` otherwise; entries not of this dot-prefixed form —
and the entry `./` whose stripped subpath is empty — are dropped silently,
and resolution distributes over the request list.  (Dropped entries are not
exactly those validation rejects: `".foo"` passes validation yet is
dropped.) -/
theorem getExportsData_characterization (packageName : String)
    (probe : String → Bool) (e : String) (hr : e = ".") :
    getExportsData packageName probe [e]
      = [{ importSpecifier := packageName, exportPath := ".",
           hasDefaultExport := probe packageName }]
    ∧ (∀ e' : String, jsStartsWith e' "./" = true → jsDrop e' 2 ≠ "" →
        jsDrop e' 2 ≠ "." →
        getExportsData packageName probe [e']
          = [{ importSpecifier := packageName ++ "/" ++ jsDrop e' 2,
               exportPath := jsDrop e' 2,
               hasDefaultExport := probe (packageName ++ "/" ++ jsDrop e' 2) }])
    ∧ (∀ e' : String, jsStartsWith e' "./" = false → e' ≠ "." →
        getExportsData packageName probe [e'] = [])
    ∧ (∀ e' : String, jsStartsWith e' "./" = true → jsDrop e' 2 = "" →
        getExportsData packageName probe [e'] = [])
    ∧ (∀ xs ys : List String,
        getExportsData packageName probe (xs ++ ys)
          = getExportsData packageName probe xs
            ++ getExportsData packageName probe ys) := by
  subst hr
  refine ⟨?_, ?_, ?_, ?_, ?_⟩
  · simp [getExportsData, jsStartsWith, startsWithList, jsDrop]
  · intro e' h1 h2 h3
    simp [getExportsData, List.filterMap_cons, h1, h2, h3,
      String.append_assoc]
  · intro e' h1 h2
    simp [getExportsData, List.filterMap_cons, h1, h2]
  · intro e' h1 h2
    simp [getExportsData, List.filterMap_cons, h1, h2]
  · intro xs ys
    simp [getExportsData, List.filterMap_append]

/-- Concrete run of the C6 amended theorem: the root request `.` resolves to
the package name itself. -/
theorem getExportsData_characterization_app :
    getExportsData "pkg" (fun _ => true) ["."]
      = [{ importSpecifier := "pkg", exportPath := ".",
           hasDefaultExport := true }] :=
  (getExportsData_characterization "pkg" (fun _ => true) "." rfl).1

/-- C10: the default-export probe is total with respect to probe failures —
when the external probe build throws, `hasDefaultExport` returns `false`
instead of propagating the error (the `catch` branch), and on success it
classifies by the diagnostic-signature search; it never aborts the run. -/
theorem hasDefaultExport_total_on_failure :
    (∀ msg : String, hasDefaultExport (Except.error msg) = false)
    ∧ (∀ out : String, hasDefaultExport (Except.ok out)
        = !(jsIncludes out defaultExportSignature)) :=
  ⟨fun _ => rfl, fun _ => rfl⟩

/-- Concrete run of the C10 theorem: a probe build failure classifies the
export as having no default export. -/
theorem hasDefaultExport_total_on_failure_app :
    hasDefaultExport (Except.error "spawn failed") = false :=
  hasDefaultExport_total_on_failure.1 "spawn failed"

/-! ### Failure propagation — `wrapWithLogger` and `exitAndReport`
(src/unnamed/part_000 lines 859-864 and 987-1000).

Every pipeline stage runs inside `wrapWithLogger`.  A fatal stage that
throws is caught there and `exitAndReport(1)` runs: it awaits every
already-deferred measurement (`await Promise.all(deferred)`), prints
whatever results were collected (`printResults()`), runs the cleanup
callbacks, and exits the process — so no later stage ever runs.  A
non-fatal stage rethrows to its caller, which degrades to a default value
and lets the pipeline continue (the `resolvePackageJson` pattern).

The run's mutable context is `PipelineState`; a stage is a state transformer
plus a success flag (`false` embeds a thrown exception). -/

/-- The run's observable state: collected result records, and what
`exitAndReport` has done. -/
structure PipelineState where
  results : List String
  deferredAwaited : Bool
  rendered : Option (List String)
  cleanupRun : Bool
  exitCode : Option Nat
deriving DecidableEq, Repr

/-- `exitAndReport(code)`: await deferred measurements, render the collected
results, run cleanup, exit with `code`. -/
def exitAndReport (code : Nat) (s : PipelineState) : PipelineState :=
  { s with deferredAwaited := true,
           rendered := some s.results,
           cleanupRun := true,
           exitCode := some code }

/-- A pipeline stage: its effect on the state and whether it succeeded
(`false` = it threw). -/
structure Step where
  fatal : Bool
  run : PipelineState → PipelineState × Bool

/-- `wrapWithLogger(fn, message, fatal)`: run the stage; on a thrown error,
a fatal stage triggers `exitAndReport(1)` and stops the pipeline, a
non-fatal one is degraded by its caller and the pipeline continues.  The
returned flag is whether the pipeline continues. -/
def wrapWithLogger (step : Step) (s : PipelineState) :
    PipelineState × Bool :=
  let r := step.run s
  if r.2 then (r.1, true)
  else if step.fatal then (exitAndReport 1 r.1, false)
  else (r.1, true)

/-- The top-level pipeline: run the stages in order through
`wrapWithLogger`; when all complete, `exitAndReport(0)` runs. -/
def runPipeline (steps : List Step) (s : PipelineState) : PipelineState :=
  match steps with
  | [] => exitAndReport 0 s
  | step :: rest =>
    let r := wrapWithLogger step s
    if r.2 then runPipeline rest r.1 else r.1

/-- C8: when a fatal stage fails, the remaining stages are short-circuited —
the final state is `exitAndReport 1` of the failing stage's state, whatever
the rest of the pipeline was — and that final state has awaited every
already-deferred measurement, rendered the partial results collected so
far, run the cleanup, and exited with the non-zero code 1. -/
theorem fatal_failure_reports_and_cleans (step : Step) (rest : List Step)
    (s : PipelineState) (hfatal : step.fatal = true)
    (hfail : (step.run s).2 = false) :
    runPipeline (step :: rest) s = exitAndReport 1 (step.run s).1
    ∧ (runPipeline (step :: rest) s).deferredAwaited = true
    ∧ (runPipeline (step :: rest) s).rendered = some (step.run s).1.results
    ∧ (runPipeline (step :: rest) s).cleanupRun = true
    ∧ (runPipeline (step :: rest) s).exitCode = some 1 := by
  have hrun : runPipeline (step :: rest) s = exitAndReport 1 (step.run s).1 := by
    simp [runPipeline, wrapWithLogger, hfail, hfatal]
  exact ⟨hrun, by rw [hrun]; rfl, by rw [hrun]; rfl, by rw [hrun]; rfl,
    by rw [hrun]; rfl⟩

/-- A concrete failing fatal stage (the build step throwing). -/
def failingFatalStep : Step :=
  { fatal := true, run := fun s => (s, false) }

/-- A concrete mid-run state with one deferred measurement collected. -/
def midRunState : PipelineState :=
  { results := ["nodeModulesSize"], deferredAwaited := false,
    rendered := Option.none, cleanupRun := false, exitCode := Option.none }

/-- Concrete run of the C8 theorem: a failing fatal build step with one
deferred result collected still renders that result, cleans up, and exits
with code 1. -/
theorem fatal_failure_reports_and_cleans_app :
    (runPipeline [failingFatalStep] midRunState).rendered
      = some (failingFatalStep.run midRunState).1.results :=
  (fatal_failure_reports_and_cleans failingFatalStep [] midRunState
    rfl rfl).2.2.1

/-! ### Version mismatch check (src/index.js lines 68-72; the same check is
at src/unnamed/part_000 lines 38-40).

After `resolvePackageJson` returns the installed manifest's version, the
top level compares it with the version requested on the command line:
`if (version && version !== packageVersion) console.warn(...)`.  This is
straight-line code — it never exits or throws — and every later use of the
version (the success banner, the JSON metadata) reads `packageVersion`, the
installed one.  A missing positional version is `Option.none`; JavaScript
string truthiness makes the empty string skip the warning too. -/

/-- The warning the mismatch check emits (src/index.js line 71). -/
def versionMismatchWarning (version : Option String)
    (packageVersion : String) : List String :=
  match version with
  | Option.none => []
  | some v =>
    if v ≠ "" ∧ v ≠ packageVersion then
      ["Installed version is " ++ packageVersion]
    else []

/-- The mismatch check as a pipeline step: the warnings it emits, the
version the rest of the run uses, and its exit code (`Option.none`: it
never terminates the run). -/
def versionCheckStep (version : Option String) (packageVersion : String) :
    List String × String × Option Nat :=
  (versionMismatchWarning version packageVersion, packageVersion,
    Option.none)

/-- C9: when the installed manifest's version differs from the (non-empty)
requested one, the discrepancy is reported as a warning, the run is not
terminated, and the run continues using the installed version. -/
theorem version_mismatch_warns_continues (v packageVersion : String)
    (hne : v ≠ packageVersion) (hnz : v ≠ "") :
    versionCheckStep (some v) packageVersion
      = (["Installed version is " ++ packageVersion], packageVersion,
         Option.none) := by
  simp [versionCheckStep, versionMismatchWarning, hne, hnz]

/-- Concrete run of the C9 theorem: requesting `1.0.0` while `1.0.1` was
installed warns and continues with `1.0.1`. -/
theorem version_mismatch_warns_continues_app :
    versionCheckStep (some "1.0.0") "1.0.1"
      = (["Installed version is " ++ "1.0.1"], "1.0.1", Option.none) :=
  version_mismatch_warns_continues "1.0.0" "1.0.1" (by decide) (by decide)

end PkgSz
